import Mathlib

/-!
Verification development for the `waves` repository: a shallow embedding of
`waves/membrane.py` and `waves/wavepacket.py` together with theorems about
the behaviour described in the specification.

Numeric conventions: the Python code computes with floating point; the
embedding uses exact arithmetic, with `ℚ` wherever the source only performs
field operations and comparisons on rationally-representable inputs (grid
construction, region classification, setter validation) and `ℝ`/`ℂ` where
the source uses square roots, `pi` and complex exponentials (distance
fields, wave synthesis).  `waves/base.py` and `waves/utils.py` are not part
of the sources; the definitions taken from them are modelled from the
specification and marked as such.
-/

namespace Waves

/-- Python value reaching the `Membrane.boundary` setter: a string, an int,
a bool (which Python counts as an int via `isinstance`), or any other
object. -/
inductive PyBVal where
  | pystr (s : String)
  | pyint (z : ℤ)
  | pybool (b : Bool)
  | pyother
deriving DecidableEq

/-- Python `isinstance(value, int)`: true for ints and for bools. -/
def PyBVal.isInstInt : PyBVal → Bool
  | .pyint _ => true
  | .pybool _ => true
  | _ => false

/-- Embedding of the `Membrane.boundary` setter (membrane.py lines 110-117):
it accepts the strings "transparent" and "free" and any instance of int, and
raises TypeError on everything else. -/
def boundary_setter (v : PyBVal) : Except String PyBVal :=
  if v = .pystr "transparent" ∨ v = .pystr "free" ∨ v.isInstInt then
    .ok v
  else
    .error "the boundary conditions should be free, transparent or a int value."

/-- A Python object offered as an entry of a list-valued configuration
field: either a callable (modelled as a real function) or a non-callable
object. -/
inductive PyItem where
  | fn (f : ℝ → ℝ)
  | nonCallable

/-- Python `callable(x)` on a `PyItem`. -/
def PyItem.isCallable : PyItem → Bool
  | .fn _ => true
  | .nonCallable => false

/-- A Python argument for a list-valued configuration field: None, a single
scalar object, or a sequence of objects. -/
inductive PyArg where
  | pynone
  | single (i : PyItem)
  | seq (l : List PyItem)

/-- Modelled from the spec: `BaseWave._set_list_value` (waves/base.py, not
under src/).  It normalizes a None/scalar/sequence value into a list, checks
the predicate on every element raising the given error message on failure,
and runs the on-empty behaviour when the normalized sequence is empty; that
behaviour either raises (`some msg`) or accepts the empty list (`none`). -/
def set_list_value (v : PyArg) (pred : PyItem → Bool) (errMsg : String)
    (onEmpty : Option String) : Except String (List PyItem) :=
  match v with
  | .pynone =>
    match onEmpty with
    | some e => .error e
    | none => .ok []
  | .single i => if pred i then .ok [i] else .error errMsg
  | .seq l =>
    if l.all pred then
      if l.isEmpty then
        match onEmpty with
        | some e => .error e
        | none => .ok []
      else .ok l
    else .error errMsg

/-- Embedding of the `Wavepacket.dispersion` setter (wavepacket.py lines
75-91): None is intercepted first and silently stored as the empty list;
any other value goes through `set_list_value` with the callable predicate
and an on-empty behaviour that raises ValueError. -/
def dispersion_setter (v : PyArg) : Except String (List PyItem) :=
  match v with
  | .pynone => .ok []
  | _ =>
    set_list_value v PyItem.isCallable
      "disprel should be a callable object, e.g., a function of 1 argument, or a list of such elements."
      (some "at least one dispersion relationship is need")

/-- Embedding of `Membrane._reflect_position` (membrane.py lines 203-274),
with `(Dx, Dy)` the half-extents `self.domain[0][1]` and
`self.domain[1][1]`.  The nine regions are tested in source order; falling
through every test raises ValueError. -/
def reflect_position (Dx Dy : ℚ) (pos : ℚ × ℚ) : Except String (List (ℚ × ℚ)) :=
  let x := pos.1
  let y := pos.2
  let ra : ℚ × ℚ := (x, 2 * Dy - y)
  let rb : ℚ × ℚ := (2 * Dx - x, y)
  let rc : ℚ × ℚ := (x, 2 * (-Dy) - y)
  let rd : ℚ × ℚ := (2 * (-Dx) - x, y)
  if -Dx < x ∧ x < Dx ∧ -Dy < y ∧ y < Dy then .ok [ra, rb, rc, rd]
  else if y > Dy ∧ x < -Dx then .ok [rb, rc]
  else if y > Dy ∧ -Dx ≤ x ∧ x < Dx then .ok [rb, rc, rd]
  else if y > Dy ∧ x ≥ Dx then .ok [rc, rd]
  else if x > Dx ∧ -Dy ≤ y ∧ y ≤ Dy then .ok [ra, rc, rd]
  else if x ≥ Dx ∧ y ≤ Dy then .ok [ra, rd]
  else if y < -Dy ∧ -Dx ≤ x ∧ x < Dx then .ok [ra, rb, rd]
  else if y < -Dy ∧ x < -Dx then .ok [ra, rb]
  else if x < -Dx ∧ -Dy ≤ y ∧ y ≤ Dy then .ok [ra, rb, rc]
  else .error "something went wrong and this condition should not have been reached."

/-- Embedding of `np.arange(0, stop, step)` as used in `Membrane.__init__`:
numpy produces `ceil(stop / step)` elements `0, step, 2 step, ...` (and an
empty array when that count is nonpositive). -/
def arange (stop step : ℚ) : List ℚ :=
  (List.range (Int.toNat ⌈stop / step⌉)).map fun i : ℕ => (i : ℚ) * step

/-- Embedding of the mirroring helper in `Membrane.__init__` (membrane.py
line 61): prepend the negated reversed tail, producing an axis symmetric
about zero. -/
def flip_and_hstack (u : List ℚ) : List ℚ :=
  ((u.drop 1).map Neg.neg).reverse ++ u

/-- The membership test of `Membrane._add_source_to_list` (membrane.py lines
185-186): the position lies within the x and y coordinate extents of the
grid. -/
def inside_extents (xs ys : List ℚ) (pos : ℚ × ℚ) : Bool :=
  decide (xs.head?.getD 0 ≤ pos.1) && decide (pos.1 ≤ xs.getLast?.getD 0) &&
  decide (ys.head?.getD 0 ≤ pos.2) && decide (pos.2 ≤ ys.getLast?.getD 0)

/-- State of a `Wavepacket` object: configuration plus the mutable
discretization and result data (`None` encoded as `Option.none`). -/
structure Wavepacket where
  fs : Option ℝ
  dx : Option ℝ
  time_boundary : Option (ℝ × ℝ)
  space_boundary : Option (ℝ × ℝ)
  spectrum : List ℝ
  disprel : List (ℝ → ℝ)
  envelope : Option (ℝ → ℝ)
  normalize : Bool
  time_axis : Option (List ℝ)
  space_axis : Option (List ℝ)
  results : Option (List (List ℂ))

/-- A Python value reaching the `Wavepacket.envelope` setter. -/
inductive PyEnvArg where
  | pynone
  | fn (f : ℝ → ℝ)
  | nonCallable

/-- Embedding of the `Wavepacket.envelope` setter (wavepacket.py lines
114-127): the stored envelope is reset to None first; then None is
accepted, a non-callable raises TypeError (leaving the reset in place), and
a callable is stored.  The mutated object is returned together with the
raised error, if any. -/
def envelope_setter (w : Wavepacket) (v : PyEnvArg) : Wavepacket × Option String :=
  let w1 := { w with envelope := none }
  match v with
  | .pynone => (w1, none)
  | .fn f => ({ w1 with envelope := some f }, none)
  | .nonCallable => (w1, some "envelope should be a function of one paramenter.")

/-- Modelled from the spec: `BaseWave.purge_data` (waves/base.py, not under
src/) releases the results field while retaining the configuration. -/
def purge_data (w : Wavepacket) : Wavepacket := { w with results := none }

section RealDefs

open Classical

/-- Modelled from the spec: `BaseWave._discretize` (waves/base.py, not under
src/) turns a (min, max) bound and a positive step into the coordinate
sequence from min to max inclusive snapped to exact integer multiples of
the step; a nonpositive step or an empty range is an error. -/
noncomputable def discretize (lo hi step : ℝ) : Except String (List ℝ) :=
  if step ≤ 0 then .error "discretize: step must be positive"
  else if ⌊hi / step⌋ < ⌈lo / step⌉ then .error "discretize: empty range"
  else .ok ((List.range (⌊hi / step⌋ + 1 - ⌈lo / step⌉).toNat).map
      fun i : ℕ => ((⌈lo / step⌉ : ℝ) + (i : ℝ)) * step)

/-- Modelled from the spec: `waves.utils.complex_wave` (not under src/), the
pure traveling-wave term for dispersion relation `d` and frequency `f` over
the given space and time axes; the entry at time `t` and position `x` is
`exp (i (k x - 2 pi f t))` with wavenumber `k = d f`. -/
noncomputable def complex_wave (d : ℝ → ℝ) (f : ℝ) (xs ts : List ℝ) :
    List (List ℂ) :=
  ts.map fun t => xs.map fun x =>
    Complex.exp (Complex.I * ((d f * x - 2 * Real.pi * f * t : ℝ) : ℂ))

/-- A time-by-space zero matrix, the accumulator allocated by
`Wavepacket.eval` (wavepacket.py lines 163-165). -/
def zeros2C (nT nX : ℕ) : List (List ℂ) :=
  List.replicate nT (List.replicate nX 0)

/-- Elementwise sum of two complex matrices (`data += ...`). -/
def add2C (a b : List (List ℂ)) : List (List ℂ) :=
  List.zipWith (fun r s => List.zipWith (· + ·) r s) a b

/-- The accumulation loop of `Wavepacket.eval` (wavepacket.py lines
167-171): for every frequency of the spectrum and every dispersion
relation, add the traveling-wave term into the accumulator. -/
noncomputable def accum_field (spectrum : List ℝ) (ds : List (ℝ → ℝ))
    (xs ts : List ℝ) : List (List ℂ) :=
  ((spectrum.map fun f => ds.map fun d => (f, d)).flatten).foldl
    (fun acc fd => add2C acc (complex_wave fd.2 fd.1 xs ts))
    (zeros2C ts.length xs.length)

/-- Embedding of `np.max(np.abs(data))` on a complex matrix; the matrices
the code takes it on are nonempty, where the 0 base of the fold is
absorbed. -/
noncomputable def max_abs_c (m : List (List ℂ)) : ℝ :=
  (m.flatten.map Complex.abs).foldr max 0

/-- The normalization step of `Wavepacket.eval` (wavepacket.py lines
174-177): divide by the maximum absolute value when it is at least 1e-24,
otherwise leave the data unscaled. -/
noncomputable def normalize_c (m : List (List ℂ)) : List (List ℂ) :=
  if max_abs_c m ≥ 1e-24 then
    m.map fun row => row.map fun z => z / ((max_abs_c m : ℝ) : ℂ)
  else m

/-- The envelope application of `Wavepacket.eval` (wavepacket.py lines
180-184): multiply every time row elementwise by the envelope evaluated on
the space axis. -/
noncomputable def apply_envelope (g : ℝ → ℝ) (xs : List ℝ)
    (m : List (List ℂ)) : List (List ℂ) :=
  m.map fun row => List.zipWith (fun z x => z * ((g x : ℝ) : ℂ)) row xs

/-- Embedding of `Wavepacket.eval` (wavepacket.py lines 141-186) as a state
transformer: the returned wavepacket carries every mutation performed
before a failure and the second component is the raised error, if any.  The
time and space axes are rediscretized, the boundaries are snapped to the
realized extents, the complex field is accumulated over spectrum and
dispersion relations, normalized, and shaped by the envelope; a missing
configuration value surfaces as the error Python would raise inside the
corresponding property access. -/
noncomputable def wp_eval (w : Wavepacket) : Wavepacket × Option String :=
  match w.fs with
  | none => (w, some "wavepacket: fs is not set")
  | some fs =>
    match w.time_boundary with
    | none => (w, some "wavepacket: time boundary is not set")
    | some tb =>
      match discretize tb.1 tb.2 (1 / fs) with
      | .error e => (w, some e)
      | .ok lt =>
        match w.dx with
        | none => ({ w with time_axis := some lt }, some "wavepacket: dx is not set")
        | some dx =>
          match w.space_boundary with
          | none =>
            ({ w with time_axis := some lt },
              some "wavepacket: space boundary is not set")
          | some sb =>
            match discretize sb.1 sb.2 dx with
            | .error e => ({ w with time_axis := some lt }, some e)
            | .ok lx =>
              ({ w with
                  time_axis := some lt,
                  space_axis := some lx,
                  time_boundary := some (lt.head?.getD 0, lt.getLast?.getD 0),
                  space_boundary := some (lx.head?.getD 0, lx.getLast?.getD 0),
                  results := some (
                    match w.envelope with
                    | none =>
                      if w.normalize then
                        normalize_c (accum_field w.spectrum w.disprel lx lt)
                      else accum_field w.spectrum w.disprel lx lt
                    | some g =>
                      apply_envelope g lx
                        (if w.normalize then
                          normalize_c (accum_field w.spectrum w.disprel lx lt)
                        else accum_field w.spectrum w.disprel lx lt)) }, none)

/-- Embedding of the `Wavepacket.data` property (wavepacket.py lines
134-139): the negated imaginary part of the complex results. -/
noncomputable def wp_data (w : Wavepacket) : Option (List (List ℝ)) :=
  w.results.map fun m => m.map fun row => row.map fun z => -z.im

end RealDefs

/-- A placement held by the membrane: the cloned reconfigured wavepacket,
the source position, and the precomputed distance field over the grid. -/
structure Placement where
  wp : Wavepacket
  pos : ℚ × ℚ
  dist : List (List ℝ)

/-- State of a `Membrane` object.  `xylims` stores the half-extent
intervals kept by the `domain` property; `xs`/`ys` are the grid axes and
`time_axis` the realized time discretization. -/
structure Membrane where
  fs : ℚ
  dx : ℚ
  time_boundary : ℚ × ℚ
  xylims : (ℚ × ℚ) × (ℚ × ℚ)
  xs : List ℚ
  ys : List ℚ
  time_axis : List ℝ
  boundary : PyBVal
  normalize : Bool
  sources : List Placement
  reflected_sources : List Placement
  results : Option (List (List (List ℝ)))

section MembraneDefs

open Classical

/-- The per-grid-point Euclidean distance field from a position
(membrane.py lines 179-181); rows follow the y axis and columns the x axis,
as with `np.meshgrid`. -/
noncomputable def dist_field (xs ys : List ℚ) (pos : ℚ × ℚ) : List (List ℝ) :=
  ys.map fun y : ℚ => xs.map fun x : ℚ =>
    Real.sqrt (((x : ℝ) - (pos.1 : ℝ)) ^ 2 + ((y : ℝ) - (pos.2 : ℝ)) ^ 2)

/-- Maximum of a list of reals, `np.max` on a nonempty array. -/
noncomputable def list_max : List ℝ → ℝ
  | [] => 0
  | x :: xs => xs.foldl max x

/-- Minimum of a list of reals, `np.min` on a nonempty array. -/
noncomputable def list_min : List ℝ → ℝ
  | [] => 0
  | x :: xs => xs.foldl min x

/-- Embedding of `Membrane._add_source_to_list` (membrane.py lines
165-201): deep-copy the wavepacket, purge it, bind the membrane
discretization, compute the distance field over the whole grid and set the
clone's 1D space domain to `(d_min, d_max)`. -/
noncomputable def add_source_to_list (m : Membrane) (w : Wavepacket)
    (pos : ℚ × ℚ) : Placement :=
  let dist := dist_field m.xs m.ys pos
  let dmax := list_max dist.flatten
  let dmin : ℝ := if inside_extents m.xs m.ys pos then 0 else list_min dist.flatten
  { wp := { purge_data w with
              dx := some ((m.dx : ℝ)),
              fs := some ((m.fs : ℝ)),
              space_boundary := some (dmin, dmax),
              time_boundary := some ((m.time_boundary.1 : ℝ), (m.time_boundary.2 : ℝ)) },
    pos := pos,
    dist := dist }

/-- One inner pass of the reflection iteration in `Membrane.add_source`
(membrane.py lines 154-156): reflect every position of the previous round,
concatenating the results. -/
def reflect_all (Dx Dy : ℚ) (ps : List (ℚ × ℚ)) : Except String (List (ℚ × ℚ)) :=
  ps.foldlM (fun acc p => (reflect_position Dx Dy p).map fun l => acc ++ l) []

/-- The outer reflection loop of `Membrane.add_source` (membrane.py lines
150-159): run the given number of extra rounds, appending every round's
positions to the accumulated list. -/
def reflect_rounds (Dx Dy : ℚ) :
    ℕ → List (ℚ × ℚ) → List (ℚ × ℚ) → Except String (List (ℚ × ℚ))
  | 0, acc, _ => .ok acc
  | n + 1, acc, tmp1 =>
    match reflect_all Dx Dy tmp1 with
    | .error e => .error e
    | .ok tmp2 => reflect_rounds Dx Dy n (acc ++ tmp2) tmp2

/-- Embedding of `Membrane.add_source` (membrane.py lines 119-163) for a
well-typed source and position: always register the real placement; with a
transparent boundary stop, otherwise compute first-order images and, for an
integer boundary N, N-1 further rounds of images, and register every image
as a reflected placement. -/
noncomputable def add_source (m : Membrane) (w : Wavepacket) (pos : ℚ × ℚ) :
    Except String Membrane :=
  let m1 := { m with sources := m.sources ++ [add_source_to_list m w pos] }
  let Dx := m1.xylims.1.2
  let Dy := m1.xylims.2.2
  if m1.boundary = .pystr "transparent" then .ok m1
  else if m1.boundary = .pystr "free" ∨ m1.boundary.isInstInt then
    match reflect_position Dx Dy pos with
    | .error e => .error e
    | .ok refl0 =>
      let iters : ℕ :=
        match m1.boundary with
        | .pyint n => (n - 1).toNat
        | .pybool b => ((cond b 1 0 : ℤ) - 1).toNat
        | _ => 0
      match reflect_rounds Dx Dy iters refl0 refl0 with
      | .error e => .error e
      | .ok refl =>
        .ok { m1 with reflected_sources :=
                m1.reflected_sources ++ refl.map fun p => add_source_to_list m1 w p }
  else .ok m1

/-- Embedding of `Membrane.__init__` (membrane.py lines 43-77): validate the
size and the boundary, build the symmetric grid with `arange` and the
mirroring helper, discretize the time axis (`get_time`, modelled from the
spec, with a scalar travel time T standing for the interval (0, T)),
re-derive the domain half-extents from the realized grid, and add the
given sources. -/
noncomputable def mk_membrane (fs dx : ℚ) (size : ℚ × ℚ) (T : ℚ)
    (srcs : List (Wavepacket × ℚ × ℚ)) (normalize : Bool) (boundary : PyBVal) :
    Except String Membrane :=
  if 0 < size.1 ∧ 0 < size.2 then
    match boundary_setter boundary with
    | .error e => .error e
    | .ok b =>
      match discretize 0 ((T : ℝ)) (1 / (fs : ℝ)) with
      | .error e => .error e
      | .ok ta =>
        let xs := flip_and_hstack (arange (size.1 / 2) dx)
        let ys := flip_and_hstack (arange (size.2 / 2) dx)
        let Dx := xs.getLast?.getD 0
        let Dy := ys.getLast?.getD 0
        if 0 < Dx ∧ 0 < Dy then
          let m0 : Membrane :=
            { fs := fs, dx := dx, time_boundary := (0, T),
              xylims := ((-Dx, Dx), (-Dy, Dy)),
              xs := xs, ys := ys, time_axis := ta,
              boundary := b, normalize := normalize,
              sources := [], reflected_sources := [], results := none }
          srcs.foldlM (fun m sp => add_source m sp.1 sp.2) m0
        else .error "the size of the membrane shoulde be a tuple of two numbers greater than 0."
  else .error "the size of the membrane shoulde be a tuple of two numbers greater than 0."

/-- Modelled from the spec: one-dimensional linear interpolation as in
`np.interp` (used by `waves.base.interp`, not under src/): piecewise linear
between axis nodes, clamping queries beyond either end of the axis. -/
noncomputable def interp1 : List ℝ → List ℝ → ℝ → ℝ
  | x0 :: x1 :: xs, y0 :: y1 :: ys, q =>
    if q ≤ x0 then y0
    else if q ≤ x1 then y0 + (y1 - y0) * (q - x0) / (x1 - x0)
    else interp1 (x1 :: xs) (y1 :: ys) q
  | [_], y0 :: _, _ => y0
  | _, _, _ => 0

/-- Modelled from the spec: `waves.base.interp` (not under src/): the 1D
profile, indexed by the source axis, is interpolated at every value of the
distance field independently per time slice, giving a field shaped like the
distance field with a trailing time dimension. -/
noncomputable def interp3 (dist : List (List ℝ)) (axis : List ℝ)
    (data2 : List (List ℝ)) : List (List (List ℝ)) :=
  dist.map fun row => row.map fun q => data2.map fun slice => interp1 axis slice q

/-- Elementwise sum of two 3D fields (`data += ...` in `Membrane.eval`). -/
def add3 (a b : List (List (List ℝ))) : List (List (List ℝ)) :=
  List.zipWith (fun p q => List.zipWith (fun r s => List.zipWith (· + ·) r s) p q) a b

/-- The zero 3D field allocated by `Membrane.eval` (membrane.py lines
279-282). -/
def zeros3 (nx ny nt : ℕ) : List (List (List ℝ)) :=
  List.replicate nx (List.replicate ny (List.replicate nt 0))

/-- Embedding of `np.max(np.abs(data))` on a real 3D field. -/
noncomputable def max_abs3 (d : List (List (List ℝ))) : ℝ :=
  ((d.flatten.flatten).map abs).foldr max 0

/-- The normalization step of `Membrane.eval` (membrane.py lines 294-297). -/
noncomputable def normalize3 (d : List (List (List ℝ))) : List (List (List ℝ)) :=
  if max_abs3 d ≥ 1e-24 then
    d.map fun p => p.map fun r => r.map fun v => v / max_abs3 d
  else d

/-- One iteration of the source loop in `Membrane.eval` (membrane.py lines
284-291): evaluate the placement's wavepacket, interpolate its displacement
data over the distance field, add into the accumulator and purge.  On
failure the partially mutated placement is kept and the error reported. -/
noncomputable def eval_step (acc : List (List (List ℝ))) (p : Placement) :
    Except (Placement × String) (Placement × List (List (List ℝ))) :=
  match wp_eval p.wp with
  | (w1, some e) => .error ({ p with wp := w1 }, e)
  | (w1, none) =>
    .ok ({ p with wp := purge_data w1 },
      add3 acc (interp3 p.dist (w1.space_axis.getD []) ((wp_data w1).getD [])))

/-- Folding a list of placements through `eval_step`, keeping Python's
in-place mutation semantics: placements processed before a failure keep
their mutations, the failing one keeps its partial mutation, the rest are
untouched. -/
noncomputable def eval_placements :
    List Placement → List (List (List ℝ)) →
    List Placement × List (List (List ℝ)) × Option String
  | [], acc => ([], acc, none)
  | p :: ps, acc =>
    match eval_step acc p with
    | .error (p1, e) => (p1 :: ps, acc, some e)
    | .ok (p1, acc1) =>
      match eval_placements ps acc1 with
      | (ps1, acc2, r) => (p1 :: ps1, acc2, r)

/-- Embedding of `Membrane.eval` (membrane.py lines 276-299) as a state
transformer: allocate the zero accumulator, fold the real then the
reflected placements into it, normalize, and only then publish the
accumulator into `results`; on an error the membrane keeps the mutations
made so far but `results` stays untouched. -/
noncomputable def membrane_eval (m : Membrane) : Membrane × Option String :=
  match eval_placements m.sources (zeros3 m.xs.length m.ys.length m.time_axis.length) with
  | (srcs1, _, some e) => ({ m with sources := srcs1 }, some e)
  | (srcs1, acc1, none) =>
    match eval_placements m.reflected_sources acc1 with
    | (refl1, _, some e) =>
      ({ m with sources := srcs1, reflected_sources := refl1 }, some e)
    | (refl1, acc2, none) =>
      ({ m with sources := srcs1, reflected_sources := refl1,
                results := some (if m.normalize then normalize3 acc2 else acc2) }, none)

end MembraneDefs

/-- Shape observer on a 3D field: outer length and the lengths of the first
row and first column, matching the numpy shape on a rectangular array. -/
def shape3 (r : List (List (List ℝ))) : ℕ × ℕ × ℕ :=
  (r.length, (r.head?.getD []).length, ((r.head?.getD []).head?.getD []).length)

/-- Shape of the published results of a membrane, as `get_data` exposes
them (membrane.py lines 301-318). -/
def results_shape (m : Membrane) : Option (ℕ × ℕ × ℕ) := m.results.map shape3

/-- Shape of the results published by evaluating a freshly constructed
membrane: the observable of the end-to-end scenario. -/
noncomputable def eval_shape (r : Except String Membrane) : Option (ℕ × ℕ × ℕ) :=
  match r with
  | .error _ => none
  | .ok m => results_shape (membrane_eval m).1

/-- Rectangularity of a complex matrix: a rows, each of b entries. -/
def Shape2 (m : List (List ℂ)) (a b : ℕ) : Prop :=
  m.length = a ∧ ∀ r ∈ m, r.length = b

/-- Rectangularity of a real matrix: a rows, each of b entries. -/
def Shape2R (m : List (List ℝ)) (a b : ℕ) : Prop :=
  m.length = a ∧ ∀ r ∈ m, r.length = b

/-- Rectangularity of a real 3D field. -/
def Shape3 (d : List (List (List ℝ))) (a b c : ℕ) : Prop :=
  d.length = a ∧ ∀ p ∈ d, p.length = b ∧ ∀ q ∈ p, q.length = c

/-! Concrete objects used to instantiate the theorems below. -/

/-- A wavepacket with no discretization configured; evaluating it fails at
the first property access. -/
def wpNoFs : Wavepacket :=
  { fs := none, dx := none, time_boundary := none, space_boundary := none,
    spectrum := [], disprel := [], envelope := none, normalize := true,
    time_axis := none, space_axis := none, results := none }

/-- A membrane holding one placement whose wavepacket cannot be evaluated,
with previously published results. -/
def memFail : Membrane :=
  { fs := 1, dx := 1, time_boundary := (0, 0),
    xylims := ((-1, 1), (-1, 1)), xs := [0], ys := [0], time_axis := [0],
    boundary := .pystr "transparent", normalize := true,
    sources := [{ wp := wpNoFs, pos := (0, 0), dist := [[0]] }],
    reflected_sources := [],
    results := some [[[5]]] }

/-- A sourceless membrane with normalization disabled. -/
def memEmpty : Membrane :=
  { fs := 1, dx := 1, time_boundary := (0, 0),
    xylims := ((-1, 1), (-1, 1)), xs := [0], ys := [0], time_axis := [0],
    boundary := .pystr "transparent", normalize := false,
    sources := [], reflected_sources := [], results := none }

/-- The state `memEmpty` reaches after a successful evaluation. -/
def memEmptyEvaled : Membrane := { memEmpty with results := some [[[0]]] }

/-- A membrane used to exercise `add_source_to_list` on a one-point grid. -/
def memPoint : Membrane :=
  { fs := 1, dx := 1, time_boundary := (0, 0),
    xylims := ((-1, 1), (-1, 1)), xs := [0], ys := [0], time_axis := [0],
    boundary := .pystr "transparent", normalize := true,
    sources := [], reflected_sources := [], results := none }

/-- A fully configured wavepacket whose single-point axes give the constant
field 1: one frequency, the identity dispersion relation, no envelope. -/
def wpUnit : Wavepacket :=
  { fs := some 1, dx := some 1, time_boundary := some (0, 0),
    space_boundary := some (0, 0), spectrum := [1], disprel := [fun f => f],
    envelope := none, normalize := true,
    time_axis := none, space_axis := none, results := none }

/-- The state `wpUnit` reaches after a successful evaluation. -/
def wpUnitEvaled : Wavepacket :=
  { wpUnit with
    time_axis := some [0], space_axis := some [0],
    time_boundary := some (0, 0), space_boundary := some (0, 0),
    results := some [[1]] }

/-- The wavepacket `wpUnit` with a constant one-half envelope added. -/
noncomputable def wpUnitEnv : Wavepacket :=
  { wpUnit with envelope := some (fun _ => (1 : ℝ) / 2) }

/-- The state `wpUnitEnv` reaches after a successful evaluation: the
normalized field 1 is rescaled by the envelope to 1/2. -/
noncomputable def wpUnitEnvEvaled : Wavepacket :=
  { wpUnitEnv with
    time_axis := some [0], space_axis := some [0],
    time_boundary := some (0, 0), space_boundary := some (0, 0),
    results := some [[(1 : ℂ) / 2]] }

/-- The wavepacket of the end-to-end scenario: dispersion k(f) = f and
spectrum [1], nothing else configured. -/
def wpScenario : Wavepacket :=
  { fs := none, dx := none, time_boundary := none, space_boundary := none,
    spectrum := [1], disprel := [fun f => f], envelope := none,
    normalize := true, time_axis := none, space_axis := none, results := none }

/-- The grid axis built by the constructor for size 2 and dx = 1/10:
nineteen points from -9/10 to 9/10. -/
def gridScenario : List ℚ := flip_and_hstack (arange 1 (1/10))

/-- The time axis the constructor realizes for T = 1 at fs = 10: eleven
points from 0 to 1. -/
noncomputable def taScenario : List ℝ :=
  (List.range 11).map fun i : ℕ => (i : ℝ) * (1 / 10)

/-- The membrane of the end-to-end scenario before its source is added. -/
noncomputable def memScenarioBase : Membrane :=
  { fs := 10, dx := 1/10, time_boundary := (0, 1),
    xylims := ((-(9/10), 9/10), (-(9/10), 9/10)),
    xs := gridScenario, ys := gridScenario, time_axis := taScenario,
    boundary := .pystr "transparent", normalize := true,
    sources := [], reflected_sources := [], results := none }

/-- The membrane of the end-to-end scenario: fs = 10, dx = 1/10,
size (2, 2), T = 1, transparent boundary, one wavepacket at the origin. -/
noncomputable def memScenario : Membrane :=
  { memScenarioBase with
    sources := [add_source_to_list memScenarioBase wpScenario (0, 0)] }

/-- The construction call of the end-to-end scenario. -/
noncomputable def memScenarioCtor : Except String Membrane :=
  mk_membrane 10 (1/10) (2, 2) 1 [(wpScenario, (0, 0))] true (.pystr "transparent")

/-- The distance field of the scenario source at the origin. -/
noncomputable def distScenario : List (List ℝ) :=
  dist_field gridScenario gridScenario (0, 0)

/-- The maximum distance from the scenario source to any grid point. -/
noncomputable def dmaxScenario : ℝ := list_max distScenario.flatten

/-! ## Theorems -/

/-! Helper lemmas on folds, maxima and minima of real lists. -/

theorem le_foldl_max (l : List ℝ) (a b : ℝ) (h : b ≤ a) : b ≤ l.foldl max a := by
  induction l generalizing a with
  | nil => simpa using h
  | cons c cs ih => exact ih (max a c) (le_trans h (le_max_left a c))

theorem mem_le_foldl_max (l : List ℝ) (a : ℝ) : ∀ b ∈ l, b ≤ l.foldl max a := by
  induction l generalizing a with
  | nil => intro b hb; cases hb
  | cons c cs ih =>
    intro b hb
    rcases List.mem_cons.mp hb with rfl | hb
    · exact le_foldl_max cs (max a b) b (le_max_right a b)
    · exact ih (max a c) b hb

theorem le_list_max (l : List ℝ) (b : ℝ) (hb : b ∈ l) : b ≤ list_max l := by
  cases l with
  | nil => cases hb
  | cons x xs =>
    rcases List.mem_cons.mp hb with rfl | hb
    · exact le_foldl_max xs b b le_rfl
    · exact mem_le_foldl_max xs x b hb

theorem foldl_min_le (l : List ℝ) (a b : ℝ) (h : a ≤ b) : l.foldl min a ≤ b := by
  induction l generalizing a with
  | nil => simpa using h
  | cons c cs ih => exact ih (min a c) (le_trans (min_le_left a c) h)

theorem foldl_min_le_mem (l : List ℝ) (a : ℝ) : ∀ b ∈ l, l.foldl min a ≤ b := by
  induction l generalizing a with
  | nil => intro b hb; cases hb
  | cons c cs ih =>
    intro b hb
    rcases List.mem_cons.mp hb with rfl | hb
    · exact foldl_min_le cs (min a b) b (min_le_right a b)
    · exact ih (min a c) b hb

theorem list_min_le (l : List ℝ) (b : ℝ) (hb : b ∈ l) : list_min l ≤ b := by
  cases l with
  | nil => cases hb
  | cons x xs =>
    rcases List.mem_cons.mp hb with rfl | hb
    · exact foldl_min_le xs b b le_rfl
    · exact foldl_min_le_mem xs x b hb

/-- Every entry of a distance field is a square root, hence nonnegative. -/
theorem dist_field_nonneg (xs ys : List ℚ) (pos : ℚ × ℚ) :
    ∀ d ∈ (dist_field xs ys pos).flatten, 0 ≤ d := by
  intro d hd
  rw [List.mem_flatten] at hd
  obtain ⟨row, hrow, hd⟩ := hd
  rw [dist_field, List.mem_map] at hrow
  obtain ⟨y, hy, rfl⟩ := hrow
  rw [List.mem_map] at hd
  obtain ⟨x, hx, rfl⟩ := hd
  exact Real.sqrt_nonneg _

/-- C6: for every placement built by `_add_source_to_list`, the cloned
wavepacket's space boundary is the pair (d_min, d_max) computed from the
distance field, and every value of the distance field lies within
[d_min, d_max], so interpolation in eval never needs extrapolation. -/
theorem c6_space_boundary_bounds (m : Membrane) (w : Wavepacket) (pos : ℚ × ℚ)
    (lo hi : ℝ)
    (hb : (add_source_to_list m w pos).wp.space_boundary = some (lo, hi)) :
    ∀ d ∈ (add_source_to_list m w pos).dist.flatten, lo ≤ d ∧ d ≤ hi := by
  simp only [add_source_to_list, Option.some.injEq, Prod.mk.injEq] at hb
  obtain ⟨hlo, hhi⟩ := hb
  intro d hd
  simp only [add_source_to_list] at hd
  constructor
  · rw [← hlo]
    by_cases hin : inside_extents m.xs m.ys pos
    · simp only [hin, if_true]
      exact dist_field_nonneg m.xs m.ys pos d hd
    · simp only [hin, if_false]
      exact list_min_le _ d hd
  · rw [← hhi]
    exact le_list_max _ d hd

/-- C6 witness: a one-point grid with the source at the origin. -/
theorem c6_space_boundary_bounds_witness :
    (Real.sqrt 0 ∈ (add_source_to_list memPoint wpNoFs (0, 0)).dist.flatten) ∧
      ((0 : ℝ) ≤ Real.sqrt 0 ∧ Real.sqrt 0 ≤ Real.sqrt 0) := by
  have harg : (((0 : ℚ) : ℝ) - ((0 : ℚ) : ℝ)) ^ 2 + (((0 : ℚ) : ℝ) - ((0 : ℚ) : ℝ)) ^ 2
      = (0 : ℝ) := by norm_num
  have hmem : Real.sqrt 0 ∈ (add_source_to_list memPoint wpNoFs (0, 0)).dist.flatten := by
    simp [add_source_to_list, dist_field, memPoint]
  have hb : (add_source_to_list memPoint wpNoFs (0, 0)).wp.space_boundary
      = some (0, Real.sqrt 0) := by
    simp [add_source_to_list, dist_field, memPoint, list_max, inside_extents]
  exact ⟨hmem,
    c6_space_boundary_bounds memPoint wpNoFs (0, 0) 0 (Real.sqrt 0) hb (Real.sqrt 0) hmem⟩

/-- C7: `Membrane.eval` publishes its accumulator into `results` only at
the very end of a successful run; if any step raises, the previously
published results are left unchanged. -/
theorem c7_results_unchanged_on_error (m m1 : Membrane) (e : String)
    (h : membrane_eval m = (m1, some e)) : m1.results = m.results := by
  unfold membrane_eval at h
  split at h
  · injection h with hA hB
    subst hA
    rfl
  · split at h
    · injection h with hA hB
      subst hA
      rfl
    · injection h with hA hB
      exact absurd hB (by simp)

/-- C7 witness: a membrane whose only source cannot be evaluated keeps its
previously published results. -/
theorem c7_results_unchanged_on_error_witness :
    (membrane_eval memFail).2 = some "wavepacket: fs is not set" ∧
      (membrane_eval memFail).1.results = memFail.results :=
  ⟨rfl, c7_results_unchanged_on_error memFail (membrane_eval memFail).1
      "wavepacket: fs is not set" rfl⟩

/-! Helper lemmas for idempotence of evaluation: the snapped discretization
is a fixed point of the discretizer, so re-running an evaluation reproduces
the same axes and the same field. -/

theorem discretize_ok_iff (lo hi step : ℝ) (l : List ℝ) :
    discretize lo hi step = .ok l ↔
      (¬ step ≤ 0) ∧ (¬ ⌊hi / step⌋ < ⌈lo / step⌉) ∧
      l = (List.range (⌊hi / step⌋ + 1 - ⌈lo / step⌉).toNat).map
            (fun i : ℕ => ((⌈lo / step⌉ : ℝ) + (i : ℝ)) * step) := by
  unfold discretize
  split_ifs with hs hk
  · constructor
    · intro h; exact absurd h (by simp)
    · rintro ⟨hns, -, -⟩; exact absurd hs hns
  · constructor
    · intro h; exact absurd h (by simp)
    · rintro ⟨-, hnk, -⟩; exact absurd hk hnk
  · constructor
    · intro h; injection h with h1; exact ⟨hs, hk, h1.symm⟩
    · rintro ⟨-, -, rfl⟩; rfl

theorem range_map_head (n : ℕ) (f : ℕ → ℝ) (hn : 0 < n) :
    ((List.range n).map f).head?.getD 0 = f 0 := by
  cases n with
  | zero => omega
  | succ m =>
    rw [List.range_succ_eq_map]
    simp

theorem range_map_last (n : ℕ) (f : ℕ → ℝ) (hn : 0 < n) :
    ((List.range n).map f).getLast?.getD 0 = f (n - 1) := by
  cases n with
  | zero => omega
  | succ m =>
    rw [List.range_succ, List.map_append]
    simp

theorem discretize_snap (lo hi step : ℝ) (l : List ℝ)
    (h : discretize lo hi step = .ok l) :
    discretize (l.head?.getD 0) (l.getLast?.getD 0) step = .ok l := by
  rw [discretize_ok_iff] at h
  obtain ⟨hs, hk, hl⟩ := h
  have hstep : 0 < step := not_le.mp hs
  have hk' : ⌈lo / step⌉ ≤ ⌊hi / step⌋ := not_lt.mp hk
  have hnpos : 0 < (⌊hi / step⌋ + 1 - ⌈lo / step⌉).toNat := by omega
  have hhead : l.head?.getD 0 = (⌈lo / step⌉ : ℝ) * step := by
    rw [hl, range_map_head _ _ hnpos]
    norm_num
  have hlastn : ((⌊hi / step⌋ + 1 - ⌈lo / step⌉).toNat - 1 : ℕ)
      = (⌊hi / step⌋ - ⌈lo / step⌉).toNat := by omega
  have hcast : (((⌊hi / step⌋ - ⌈lo / step⌉).toNat : ℕ) : ℝ)
      = (⌊hi / step⌋ : ℝ) - (⌈lo / step⌉ : ℝ) := by
    have h0 := Int.toNat_of_nonneg (sub_nonneg.mpr hk')
    exact_mod_cast congrArg (Int.cast : ℤ → ℝ) h0
  have hlast : l.getLast?.getD 0 = (⌊hi / step⌋ : ℝ) * step := by
    rw [hl, range_map_last _ _ hnpos, hlastn, hcast]
    ring
  have hceil : ⌈(l.head?.getD 0) / step⌉ = ⌈lo / step⌉ := by
    rw [hhead, mul_div_cancel_right₀ _ (ne_of_gt hstep), Int.ceil_intCast]
  have hfloor : ⌊(l.getLast?.getD 0) / step⌋ = ⌊hi / step⌋ := by
    rw [hlast, mul_div_cancel_right₀ _ (ne_of_gt hstep), Int.floor_intCast]
  rw [discretize_ok_iff]
  exact ⟨hs, by rw [hceil, hfloor]; exact hk, by rw [hceil, hfloor]; exact hl⟩

/-- A successfully evaluated wavepacket, once purged, evaluates back to the
very same state: the snapped boundaries are fixed points of the
discretizer, so axes and field are reproduced. -/
theorem wp_eval_stable (w w1 : Wavepacket) (h : wp_eval w = (w1, none)) :
    wp_eval (purge_data w1) = (w1, none) := by
  unfold wp_eval at h
  split at h
  · exact absurd (congrArg Prod.snd h) (by simp)
  next fs hfs =>
    split at h
    · exact absurd (congrArg Prod.snd h) (by simp)
    next tb htb =>
      split at h
      next e hdt => exact absurd (congrArg Prod.snd h) (by simp)
      next lt hdt =>
        split at h
        · exact absurd (congrArg Prod.snd h) (by simp)
        next dx hdx =>
          split at h
          · exact absurd (congrArg Prod.snd h) (by simp)
          next sb hsb =>
            split at h
            next e hds => exact absurd (congrArg Prod.snd h) (by simp)
            next lx hds =>
              injection h with hA hB
              subst hA
              have hdt2 := discretize_snap _ _ _ _ hdt
              have hds2 := discretize_snap _ _ _ _ hds
              unfold wp_eval
              simp only [purge_data, hfs, hdt2, hdx, hds2]

/-- A successfully executed evaluation step is reproduced when run again on
the resulting placement. -/
theorem eval_step_stable (acc : List (List (List ℝ))) (p p1 : Placement)
    (acc2 : List (List (List ℝ))) (h : eval_step acc p = .ok (p1, acc2)) :
    eval_step acc p1 = .ok (p1, acc2) := by
  unfold eval_step at h
  split at h
  next w1 e hw => exact absurd h (by simp)
  next w1 hw =>
    injection h with h1
    injection h1 with hA hB
    subst hA
    subst hB
    have hw2 : wp_eval (purge_data w1) = (w1, none) := wp_eval_stable _ _ hw
    unfold eval_step
    simp only [hw2]

/-- A successful placement fold is reproduced when run again on the
resulting placement list with the same initial accumulator. -/
theorem eval_placements_stable (ps : List Placement)
    (acc : List (List (List ℝ))) (ps1 : List Placement)
    (acc1 : List (List (List ℝ)))
    (h : eval_placements ps acc = (ps1, acc1, none)) :
    eval_placements ps1 acc = (ps1, acc1, none) := by
  induction ps generalizing acc ps1 acc1 with
  | nil =>
    simp only [eval_placements] at h
    injection h with hA hB
    injection hB with hB hC
    subst hA
    subst hB
    rfl
  | cons p ps ih =>
    rw [eval_placements] at h
    split at h
    next pe e hst => exact absurd (congrArg (fun t => t.2.2) h) (by simp)
    next p1' acc2 hst =>
      split at h
      next ps2 acc3 r hrec =>
        injection h with hA hB
        injection hB with hB hC
        subst hA
        subst hB
        subst hC
        rw [eval_placements, eval_step_stable _ _ _ _ hst]
        simp only [ih _ _ _ hrec]

/-- C9: `Membrane.eval` is idempotent; a second evaluation of the membrane
state produced by a successful evaluation succeeds and reproduces exactly
the same state, in particular the same `results`. -/
theorem c9_eval_idempotent (m m1 : Membrane) (h : membrane_eval m = (m1, none)) :
    membrane_eval m1 = (m1, none) := by
  unfold membrane_eval at h
  split at h
  next srcs1 a1 e1 h1 => exact absurd (congrArg Prod.snd h) (by simp)
  next srcs1 acc1 h1 =>
    split at h
    next refl1 a2 e2 h2 => exact absurd (congrArg Prod.snd h) (by simp)
    next refl1 acc2 h2 =>
      injection h with hA hB
      subst hA
      have hs1 := eval_placements_stable _ _ _ _ h1
      have hs2 := eval_placements_stable _ _ _ _ h2
      unfold membrane_eval
      simp only [hs1, hs2]

/-- C9 witness: a sourceless membrane evaluates to a published zero field,
and evaluating that state again reproduces it. -/
theorem c9_eval_idempotent_witness :
    membrane_eval memEmpty = (memEmptyEvaled, none) ∧
      membrane_eval memEmptyEvaled = (memEmptyEvaled, none) :=
  ⟨rfl, c9_eval_idempotent memEmpty memEmptyEvaled rfl⟩

/-! Helper lemmas about the wavepacket normalization step. -/

theorem flatten_map_map {α β : Type _} (m : List (List α)) (g : α → β) :
    (m.map fun row => row.map g).flatten = m.flatten.map g := by
  induction m with
  | nil => rfl
  | cons r rs ih =>
    simp only [List.map_cons, List.flatten_cons, List.map_append, ih]

theorem foldr_max_div (l : List ℝ) (c : ℝ) (hc : 0 < c) :
    ((l.map fun a => a / c).foldr max 0) = (l.foldr max 0) / c := by
  induction l with
  | nil => simp
  | cons a as ih =>
    simp only [List.map_cons, List.foldr_cons, ih]
    rcases le_total a (as.foldr max 0) with hab | hab
    · rw [max_eq_right hab, max_eq_right ((div_le_div_right hc).mpr hab)]
    · rw [max_eq_left hab, max_eq_left ((div_le_div_right hc).mpr hab)]

theorem max_abs_c_div (m : List (List ℂ)) (c : ℝ) (hc : 0 < c) :
    max_abs_c (m.map fun row => row.map fun z => z / ((c : ℝ) : ℂ))
      = max_abs_c m / c := by
  unfold max_abs_c
  rw [flatten_map_map, List.map_map]
  have hcomp : (Complex.abs ∘ fun z : ℂ => z / ((c : ℝ) : ℂ))
      = (fun a : ℝ => a / c) ∘ Complex.abs := by
    funext z
    simp [Function.comp, map_div₀, Complex.abs_ofReal, abs_of_pos hc]
  rw [hcomp, ← List.map_map, foldr_max_div _ _ hc]

theorem foldr_max_zero (l : List ℝ) (h : ∀ x ∈ l, x = 0) : l.foldr max 0 = 0 := by
  induction l with
  | nil => rfl
  | cons a as ih =>
    rw [List.foldr_cons, h a (List.mem_cons_self a as),
      ih fun x hx => h x (List.mem_cons_of_mem a hx)]
    simp

theorem zeros2C_mem (a b : ℕ) (z : ℂ) (hz : z ∈ (zeros2C a b).flatten) : z = 0 := by
  rw [List.mem_flatten] at hz
  obtain ⟨row, hrow, hz⟩ := hz
  rw [zeros2C] at hrow
  rw [List.eq_of_mem_replicate hrow] at hz
  exact List.eq_of_mem_replicate hz

theorem max_abs_c_zeros (a b : ℕ) : max_abs_c (zeros2C a b) = 0 := by
  unfold max_abs_c
  refine foldr_max_zero _ ?_
  intro x hx
  rw [List.mem_map] at hx
  obtain ⟨z, hz, rfl⟩ := hx
  rw [zeros2C_mem a b z hz]
  simp

theorem accum_field_nil (ds : List (ℝ → ℝ)) (xs ts : List ℝ) :
    accum_field [] ds xs ts = zeros2C ts.length xs.length := rfl

theorem normalize_c_zeros (a b : ℕ) : normalize_c (zeros2C a b) = zeros2C a b := by
  unfold normalize_c
  simp only [max_abs_c_zeros]
  rw [if_neg]
  norm_num

/-- C8 amended: for a wavepacket with normalize on and no envelope
configured, a successful `eval` stores a field of maximum absolute value 1
whenever the accumulated field has maximum absolute value at least 1e-24;
and with an empty frequency spectrum the accumulated field is all zeros,
the division is skipped and the stored field is all zeros. -/
theorem c8_amended (w w1 : Wavepacket)
    (hn : w.normalize = true) (he : w.envelope = none)
    (h : wp_eval w = (w1, none)) :
    (w.spectrum = [] → ∀ r, w1.results = some r → ∀ z ∈ r.flatten, z = 0) ∧
    (max_abs_c (accum_field w.spectrum w.disprel (w1.space_axis.getD [])
        (w1.time_axis.getD [])) ≥ 1e-24 →
      ∀ r, w1.results = some r → max_abs_c r = 1) := by
  unfold wp_eval at h
  split at h
  · exact absurd (congrArg Prod.snd h) (by simp)
  next fs hfs =>
    split at h
    · exact absurd (congrArg Prod.snd h) (by simp)
    next tb htb =>
      split at h
      next e hdt => exact absurd (congrArg Prod.snd h) (by simp)
      next lt hdt =>
        split at h
        · exact absurd (congrArg Prod.snd h) (by simp)
        next dx hdx =>
          split at h
          · exact absurd (congrArg Prod.snd h) (by simp)
          next sb hsb =>
            split at h
            next e hds => exact absurd (congrArg Prod.snd h) (by simp)
            next lx hds =>
              injection h with hA hB
              subst hA
              constructor
              · intro hsp r hr z hz
                simp only [he, hn, if_true, Option.some.injEq] at hr
                subst hr
                rw [hsp, accum_field_nil, normalize_c_zeros] at hz
                exact zeros2C_mem _ _ _ hz
              · intro hge r hr
                simp only [he, hn, if_true, Option.some.injEq] at hr
                subst hr
                simp only [Option.getD_some] at hge
                have hc : 0 < max_abs_c (accum_field w.spectrum w.disprel lx lt) :=
                  lt_of_lt_of_le (by norm_num) hge
                unfold normalize_c
                rw [if_pos hge, max_abs_c_div _ _ hc, div_self (ne_of_gt hc)]

/-- The unit wavepacket evaluates to the constant field 1 on its one-point
axes. -/
theorem accum_field_unit : accum_field [1] [fun f : ℝ => f] [0] [0] = [[1]] := by
  simp [accum_field, complex_wave, add2C, zeros2C]

theorem max_abs_c_one : max_abs_c [[(1 : ℂ)]] = 1 := by
  simp [max_abs_c]

theorem wp_eval_wpUnit : wp_eval wpUnit = (wpUnitEvaled, none) := by
  have hd : discretize 0 0 (1 : ℝ) = .ok [0] := by
    rw [discretize_ok_iff]
    refine ⟨by norm_num, by norm_num, ?_⟩
    norm_num [List.range_succ]
  have hnorm : normalize_c [[(1 : ℂ)]] = [[1]] := by
    unfold normalize_c
    rw [max_abs_c_one, if_pos (by norm_num)]
    simp [max_abs_c_one]
  unfold wp_eval wpUnitEvaled wpUnit
  simp [hd, accum_field_unit, hnorm]

/-- C8 amended witness: the unit wavepacket has accumulated maximum 1, well
above the threshold, and its stored field has maximum absolute value 1. -/
theorem c8_amended_witness :
    (wp_eval wpUnit = (wpUnitEvaled, none)) ∧
      max_abs_c ((wpUnitEvaled.results).getD []) = 1 := by
  refine ⟨wp_eval_wpUnit, ?_⟩
  have hge : max_abs_c (accum_field wpUnit.spectrum wpUnit.disprel
      (wpUnitEvaled.space_axis.getD []) (wpUnitEvaled.time_axis.getD [])) ≥ 1e-24 := by
    show max_abs_c (accum_field [1] [fun f : ℝ => f] [0] [0]) ≥ 1e-24
    rw [accum_field_unit, max_abs_c_one]
    norm_num
  have hr := (c8_amended wpUnit wpUnitEvaled rfl rfl wp_eval_wpUnit).2 hge [[1]] rfl
  exact hr

theorem wp_eval_wpUnitEnv : wp_eval wpUnitEnv = (wpUnitEnvEvaled, none) := by
  have hd : discretize 0 0 (1 : ℝ) = .ok [0] := by
    rw [discretize_ok_iff]
    refine ⟨by norm_num, by norm_num, ?_⟩
    norm_num [List.range_succ]
  have hnorm : normalize_c [[(1 : ℂ)]] = [[1]] := by
    unfold normalize_c
    rw [max_abs_c_one, if_pos (by norm_num)]
    simp [max_abs_c_one]
  unfold wp_eval wpUnitEnvEvaled wpUnitEnv wpUnit
  simp [hd, accum_field_unit, hnorm]
  simp [apply_envelope]

/-! Shape lemmas for the field pipeline, used by the end-to-end scenario. -/

theorem zipWith_mem {α β γ : Type _} (f : α → β → γ) (x : List α) (y : List β) :
    ∀ c ∈ List.zipWith f x y, ∃ a ∈ x, ∃ b ∈ y, c = f a b := by
  induction x generalizing y with
  | nil => intro c hc; simp at hc
  | cons a as ih =>
    intro c hc
    cases y with
    | nil => simp at hc
    | cons b bs =>
      rw [List.zipWith_cons_cons] at hc
      rcases List.mem_cons.mp hc with rfl | hc
      · exact ⟨a, List.mem_cons_self _ _, b, List.mem_cons_self _ _, rfl⟩
      · obtain ⟨a1, ha1, b1, hb1, rfl⟩ := ih bs c hc
        exact ⟨a1, List.mem_cons_of_mem _ ha1, b1, List.mem_cons_of_mem _ hb1, rfl⟩

theorem shape2_zeros2C (a b : ℕ) : Shape2 (zeros2C a b) a b := by
  refine ⟨by simp [zeros2C], ?_⟩
  intro r hr
  rw [zeros2C] at hr
  rw [List.eq_of_mem_replicate hr]
  simp

theorem shape2_complex_wave (d : ℝ → ℝ) (f : ℝ) (xs ts : List ℝ) :
    Shape2 (complex_wave d f xs ts) ts.length xs.length := by
  refine ⟨by simp [complex_wave], ?_⟩
  intro r hr
  rw [complex_wave, List.mem_map] at hr
  obtain ⟨t, ht, rfl⟩ := hr
  simp

theorem shape2_add2C (x y : List (List ℂ)) (a b : ℕ)
    (hx : Shape2 x a b) (hy : Shape2 y a b) : Shape2 (add2C x y) a b := by
  refine ⟨by rw [add2C, List.length_zipWith, hx.1, hy.1, min_self], ?_⟩
  intro r hr
  rw [add2C] at hr
  obtain ⟨u, hu, v, hv, rfl⟩ := zipWith_mem _ x y r hr
  rw [List.length_zipWith, hx.2 u hu, hy.2 v hv, min_self]

theorem shape2_accum_field (sp : List ℝ) (ds : List (ℝ → ℝ)) (xs ts : List ℝ) :
    Shape2 (accum_field sp ds xs ts) ts.length xs.length := by
  unfold accum_field
  suffices h : ∀ (l : List (ℝ × (ℝ → ℝ))) (init : List (List ℂ)),
      Shape2 init ts.length xs.length →
      Shape2 (l.foldl (fun acc fd => add2C acc (complex_wave fd.2 fd.1 xs ts)) init)
        ts.length xs.length by
    exact h _ _ (shape2_zeros2C _ _)
  intro l
  induction l with
  | nil => intro init h; exact h
  | cons fd l ih =>
    intro init h
    exact ih _ (shape2_add2C _ _ _ _ h (shape2_complex_wave _ _ _ _))

theorem shape2_map_c (m : List (List ℂ)) (a b : ℕ) (g : ℂ → ℂ)
    (h : Shape2 m a b) : Shape2 (m.map fun row => row.map g) a b := by
  refine ⟨by rw [List.length_map, h.1], ?_⟩
  intro r hr
  rw [List.mem_map] at hr
  obtain ⟨r0, hr0, rfl⟩ := hr
  rw [List.length_map, h.2 r0 hr0]

theorem shape2_normalize_c (m : List (List ℂ)) (a b : ℕ)
    (h : Shape2 m a b) : Shape2 (normalize_c m) a b := by
  unfold normalize_c
  split
  · exact shape2_map_c m a b _ h
  · exact h

theorem shape3_zeros3 (a b c : ℕ) : Shape3 (zeros3 a b c) a b c := by
  refine ⟨by simp [zeros3], ?_⟩
  intro p hp
  rw [zeros3] at hp
  rw [List.eq_of_mem_replicate hp]
  refine ⟨by simp, ?_⟩
  intro q hq
  rw [List.eq_of_mem_replicate hq]
  simp

theorem shape3_add3 (x y : List (List (List ℝ))) (a b c : ℕ)
    (hx : Shape3 x a b c) (hy : Shape3 y a b c) : Shape3 (add3 x y) a b c := by
  refine ⟨by rw [add3, List.length_zipWith, hx.1, hy.1, min_self], ?_⟩
  intro p hp
  rw [add3] at hp
  obtain ⟨u, hu, v, hv, rfl⟩ := zipWith_mem _ x y p hp
  obtain ⟨hu1, hu2⟩ := hx.2 u hu
  obtain ⟨hv1, hv2⟩ := hy.2 v hv
  refine ⟨by rw [List.length_zipWith, hu1, hv1, min_self], ?_⟩
  intro q hq
  obtain ⟨r, hr, s, hs, rfl⟩ := zipWith_mem _ u v q hq
  rw [List.length_zipWith, hu2 r hr, hv2 s hs, min_self]

theorem shape3_interp3 (dist : List (List ℝ)) (axis : List ℝ)
    (d2 : List (List ℝ)) (a b : ℕ) (hd : Shape2R dist a b) :
    Shape3 (interp3 dist axis d2) a b d2.length := by
  refine ⟨by rw [interp3, List.length_map, hd.1], ?_⟩
  intro p hp
  rw [interp3, List.mem_map] at hp
  obtain ⟨row, hrow, rfl⟩ := hp
  refine ⟨by rw [List.length_map, hd.2 row hrow], ?_⟩
  intro q hq
  rw [List.mem_map] at hq
  obtain ⟨t, ht, rfl⟩ := hq
  simp

theorem shape3_map (d : List (List (List ℝ))) (a b c : ℕ) (g : ℝ → ℝ)
    (h : Shape3 d a b c) :
    Shape3 (d.map fun p => p.map fun r => r.map g) a b c := by
  refine ⟨by rw [List.length_map, h.1], ?_⟩
  intro p hp
  rw [List.mem_map] at hp
  obtain ⟨p0, hp0, rfl⟩ := hp
  obtain ⟨h1, h2⟩ := h.2 p0 hp0
  refine ⟨by rw [List.length_map, h1], ?_⟩
  intro q hq
  rw [List.mem_map] at hq
  obtain ⟨q0, hq0, rfl⟩ := hq
  rw [List.length_map, h2 q0 hq0]

theorem shape3_normalize3 (d : List (List (List ℝ))) (a b c : ℕ)
    (h : Shape3 d a b c) : Shape3 (normalize3 d) a b c := by
  unfold normalize3
  split
  · exact shape3_map d a b c _ h
  · exact h

theorem shape2R_dist_field (xs ys : List ℚ) (pos : ℚ × ℚ) :
    Shape2R (dist_field xs ys pos) ys.length xs.length := by
  refine ⟨by rw [dist_field, List.length_map], ?_⟩
  intro r hr
  rw [dist_field, List.mem_map] at hr
  obtain ⟨y, hy, rfl⟩ := hr
  simp

theorem shape3_eq (d : List (List (List ℝ))) (a b c : ℕ) (h : Shape3 d a b c)
    (ha : 0 < a) (hb : 0 < b) : shape3 d = (a, b, c) := by
  cases d with
  | nil =>
    rw [← h.1] at ha
    simp at ha
  | cons p ds =>
    obtain ⟨hp1, hp2⟩ := h.2 p (List.mem_cons_self _ _)
    cases p with
    | nil =>
      rw [← hp1] at hb
      simp at hb
    | cons q qs =>
      have hq := hp2 q (List.mem_cons_self _ _)
      simp only [shape3, List.head?_cons, Option.getD_some]
      rw [h.1, hp1, hq]

/-! Bound lemmas: normalization clamps the field into the unit interval. -/

theorem max_abs3_div (d : List (List (List ℝ))) (c : ℝ) (hc : 0 < c) :
    max_abs3 (d.map fun p => p.map fun r => r.map fun v => v / c)
      = max_abs3 d / c := by
  unfold max_abs3
  rw [flatten_map_map, flatten_map_map, List.map_map]
  have hcomp : (abs ∘ fun v : ℝ => v / c) = (fun a : ℝ => a / c) ∘ abs := by
    funext v
    simp [Function.comp, abs_div, abs_of_pos hc]
  rw [hcomp, ← List.map_map, foldr_max_div _ _ hc]

theorem normalize3_max_le_one (d : List (List (List ℝ))) :
    max_abs3 (normalize3 d) ≤ 1 := by
  unfold normalize3
  split
  next h =>
    have hc : (0 : ℝ) < max_abs3 d := lt_of_lt_of_le (by norm_num) h
    rw [max_abs3_div d _ hc, div_self (ne_of_gt hc)]
  next h =>
    push_neg at h
    have h1 : (1e-24 : ℝ) ≤ 1 := by norm_num
    linarith

theorem le_foldr_max_of_mem (l : List ℝ) (b x : ℝ) (hx : x ∈ l) :
    x ≤ l.foldr max b := by
  induction l with
  | nil => cases hx
  | cons a as ih =>
    rcases List.mem_cons.mp hx with rfl | hx
    · exact le_max_left _ _
    · exact le_trans (ih hx) (le_max_right _ _)

/-- Every entry of a field is bounded in absolute value by `max_abs3`. -/
theorem abs_le_max_abs3 (d : List (List (List ℝ))) (v : ℝ)
    (hv : v ∈ d.flatten.flatten) : |v| ≤ max_abs3 d := by
  refine le_foldr_max_of_mem _ _ _ ?_
  exact List.mem_map_of_mem abs hv

/-! The time discretization of the end-to-end scenario. -/

theorem discretize_ta : discretize 0 1 ((1 : ℝ)/10) = .ok taScenario := by
  have hfl : ⌊(1 : ℝ) / (1/10)⌋ = 10 := by
    rw [show (1 : ℝ)/(1/10) = ((10 : ℤ) : ℝ) by norm_num, Int.floor_intCast]
  have hcl : ⌈(0 : ℝ) / (1/10)⌉ = 0 := by
    rw [zero_div, Int.ceil_zero]
  rw [discretize_ok_iff]
  refine ⟨by norm_num, by rw [hfl, hcl]; norm_num, ?_⟩
  unfold taScenario
  rw [hfl, hcl]
  simp

/-- A wavepacket with fully configured discretization, no envelope and
normalization on evaluates successfully, and its stored results form a
time-by-space rectangular matrix. -/
theorem wp_eval_shape_of (w : Wavepacket) (fs dxv : ℝ) (tb sb : ℝ × ℝ)
    (lt lx : List ℝ)
    (hfs : w.fs = some fs) (htb : w.time_boundary = some tb)
    (hdx : w.dx = some dxv) (hsb : w.space_boundary = some sb)
    (hdt : discretize tb.1 tb.2 (1 / fs) = .ok lt)
    (hds : discretize sb.1 sb.2 dxv = .ok lx)
    (henv : w.envelope = none) (hn : w.normalize = true) :
    ∃ w1, wp_eval w = (w1, none) ∧ w1.space_axis = some lx ∧
      ∃ r, w1.results = some r ∧ Shape2 r lt.length lx.length := by
  unfold wp_eval
  simp only [hfs, htb, hdt, hdx, hsb, hds, henv, hn, if_true]
  exact ⟨_, rfl, rfl, _, rfl, shape2_normalize_c _ _ _ (shape2_accum_field _ _ _ _)⟩

/-- Evaluating a membrane with one real placement, no reflected placements
and normalization on folds the single step and publishes the normalized
accumulator. -/
theorem membrane_eval_single (m : Membrane) (p p1 : Placement)
    (acc1 : List (List (List ℝ)))
    (hs : m.sources = [p]) (hr : m.reflected_sources = [])
    (hn : m.normalize = true)
    (hstep : eval_step (zeros3 m.xs.length m.ys.length m.time_axis.length) p
      = .ok (p1, acc1)) :
    membrane_eval m =
      ({ m with
          sources := [p1], reflected_sources := [],
          results := some (normalize3 acc1) }, none) := by
  unfold membrane_eval
  simp only [hs, hr, hn, eval_placements, hstep, if_true]

/-! Concrete facts about the end-to-end scenario. -/

theorem gridScenario_eq : gridScenario =
    [-(9/10), -(4/5), -(7/10), -(3/5), -(1/2), -(2/5), -(3/10), -(1/5), -(1/10),
      0, 1/10, 1/5, 3/10, 2/5, 1/2, 3/5, 7/10, 4/5, 9/10] := by
  have hc : ⌈(1 : ℚ)/(1/10)⌉ = (10 : ℤ) := by
    rw [show (1 : ℚ)/(1/10) = ((10 : ℤ) : ℚ) by norm_num, Int.ceil_intCast]
  unfold gridScenario arange flip_and_hstack
  rw [hc]
  rw [show List.range (Int.toNat 10) = [0, 1, 2, 3, 4, 5, 6, 7, 8, 9] from rfl]
  norm_num

theorem gridScenario_len : gridScenario.length = 19 := by
  rw [gridScenario_eq]
  rfl

theorem taScenario_len : taScenario.length = 11 := by simp [taScenario]

theorem inside_scen : inside_extents gridScenario gridScenario (0, 0) = true := by
  have h1 : gridScenario.head?.getD 0 = -(9/10) := by
    rw [gridScenario_eq]
    rfl
  have h2 : gridScenario.getLast?.getD 0 = 9/10 := by
    rw [gridScenario_eq]
    rfl
  rw [inside_extents, h1, h2]
  norm_num

theorem zero_mem_grid : (0 : ℚ) ∈ gridScenario := by
  rw [gridScenario_eq]
  norm_num

theorem dmax_nonneg : 0 ≤ dmaxScenario := by
  have hmem : Real.sqrt ((((0 : ℚ) : ℝ) - ((0 : ℚ) : ℝ)) ^ 2
      + (((0 : ℚ) : ℝ) - ((0 : ℚ) : ℝ)) ^ 2) ∈ distScenario.flatten := by
    unfold distScenario dist_field
    rw [List.mem_flatten]
    exact ⟨_, List.mem_map_of_mem _ zero_mem_grid,
      List.mem_map_of_mem _ zero_mem_grid⟩
  exact le_trans (Real.sqrt_nonneg _) (le_list_max _ _ hmem)

theorem space_boundary_scen :
    (add_source_to_list memScenarioBase wpScenario (0, 0)).wp.space_boundary
      = some ((0 : ℝ), dmaxScenario) := by
  simp only [add_source_to_list, memScenarioBase, inside_scen, eq_self_iff_true,
    if_true]
  rfl

theorem space_disc_scen : ∃ lx, discretize 0 dmaxScenario ((1 : ℝ)/10) = .ok lx := by
  unfold discretize
  rw [if_neg (by norm_num : ¬((1 : ℝ)/10 ≤ 0))]
  have hnn : ¬(⌊dmaxScenario / ((1 : ℝ)/10)⌋ < ⌈(0 : ℝ) / ((1 : ℝ)/10)⌉) := by
    rw [show ⌈(0 : ℝ)/((1 : ℝ)/10)⌉ = 0 from by rw [zero_div, Int.ceil_zero]]
    exact not_lt.mpr (Int.floor_nonneg.mpr (div_nonneg dmax_nonneg (by norm_num)))
  rw [if_neg hnn]
  exact ⟨_, rfl⟩

/-- The construction of the end-to-end scenario succeeds and produces the
19-point grid, the 11-point time axis and the single placement. -/
theorem mem_ctor : memScenarioCtor = .ok memScenario := by
  have hb : boundary_setter (.pystr "transparent") = .ok (.pystr "transparent") := rfl
  have hta : discretize 0 (((1 : ℚ)) : ℝ) (1 / (((10 : ℚ)) : ℝ)) = .ok taScenario := by
    simp only [Rat.cast_one, Rat.cast_ofNat]
    exact discretize_ta
  have hlast : gridScenario.getLast?.getD 0 = 9/10 := by
    rw [gridScenario_eq]
    rfl
  unfold memScenarioCtor
  simp only [mk_membrane, hb, hta]
  rw [show (2 : ℚ) / 2 = 1 from by norm_num]
  rw [show flip_and_hstack (arange (1 : ℚ) (1/10)) = gridScenario from rfl]
  rw [if_pos (show (0 : ℚ) < 2 ∧ (0 : ℚ) < 2 from by norm_num)]
  rw [hlast]
  rw [if_pos (show (0 : ℚ) < 9/10 ∧ (0 : ℚ) < 9/10 from by norm_num)]
  rfl

/-- Evaluation of the end-to-end scenario: it succeeds, the published
results are a 19 by 19 by 11 field, and its maximum absolute value is at
most 1 (hence every value lies in the interval from -1 to 1). -/
theorem c3_main :
    (membrane_eval memScenario).2 = none ∧
    results_shape (membrane_eval memScenario).1 = some (19, 19, 11) ∧
    max_abs3 ((membrane_eval memScenario).1.results.getD []) ≤ 1 := by
  obtain ⟨lx, hlx⟩ := space_disc_scen
  have hds : discretize ((0 : ℝ), dmaxScenario).1 ((0 : ℝ), dmaxScenario).2
      (((1/10 : ℚ)) : ℝ) = .ok lx := by
    rw [show (((1/10 : ℚ)) : ℝ) = (1 : ℝ)/10 from by norm_num]
    exact hlx
  have hdt : discretize (((0 : ℚ) : ℝ), ((1 : ℚ) : ℝ)).1
      (((0 : ℚ) : ℝ), ((1 : ℚ) : ℝ)).2 (1 / ((10 : ℚ) : ℝ)) = .ok taScenario := by
    simp only [Rat.cast_zero, Rat.cast_one, Rat.cast_ofNat]
    exact discretize_ta
  obtain ⟨W1, hW, hWsp, r, hWres, hWsh⟩ :=
    wp_eval_shape_of (add_source_to_list memScenarioBase wpScenario (0, 0)).wp
      (((10 : ℚ)) : ℝ) (((1/10 : ℚ)) : ℝ)
      (((0 : ℚ) : ℝ), ((1 : ℚ) : ℝ)) ((0 : ℝ), dmaxScenario) taScenario lx
      rfl rfl rfl space_boundary_scen hdt hds rfl rfl
  have hstep : eval_step (zeros3 memScenario.xs.length memScenario.ys.length
        memScenario.time_axis.length)
      (add_source_to_list memScenarioBase wpScenario (0, 0))
      = .ok ({ add_source_to_list memScenarioBase wpScenario (0, 0) with
                wp := purge_data W1 },
             add3 (zeros3 memScenario.xs.length memScenario.ys.length
                memScenario.time_axis.length)
               (interp3 (add_source_to_list memScenarioBase wpScenario (0, 0)).dist
                 lx (r.map fun row => row.map fun z => -z.im))) := by
    unfold eval_step
    simp only [hW, wp_data, hWres, hWsp, Option.getD_some, Option.map_some']
  have heval := membrane_eval_single memScenario
    (add_source_to_list memScenarioBase wpScenario (0, 0))
    ({ add_source_to_list memScenarioBase wpScenario (0, 0) with
        wp := purge_data W1 })
    (add3 (zeros3 memScenario.xs.length memScenario.ys.length
        memScenario.time_axis.length)
      (interp3 (add_source_to_list memScenarioBase wpScenario (0, 0)).dist
        lx (r.map fun row => row.map fun z => -z.im)))
    rfl rfl rfl hstep
  have hzsh : Shape3 (zeros3 memScenario.xs.length memScenario.ys.length
      memScenario.time_axis.length) 19 19 11 := by
    rw [show memScenario.xs.length = 19 from gridScenario_len,
      show memScenario.ys.length = 19 from gridScenario_len,
      show memScenario.time_axis.length = 11 from taScenario_len]
    exact shape3_zeros3 19 19 11
  have hdistsh : Shape2R (add_source_to_list memScenarioBase wpScenario (0, 0)).dist
      19 19 := by
    have h0 := shape2R_dist_field memScenarioBase.xs memScenarioBase.ys (0, 0)
    rw [show memScenarioBase.xs.length = 19 from gridScenario_len,
      show memScenarioBase.ys.length = 19 from gridScenario_len] at h0
    exact h0
  have hDlen : (r.map fun row => row.map fun z => -z.im).length = 11 := by
    rw [List.length_map, hWsh.1, taScenario_len]
  have hcontrib : Shape3 (interp3
      (add_source_to_list memScenarioBase wpScenario (0, 0)).dist
      lx (r.map fun row => row.map fun z => -z.im)) 19 19 11 := by
    have h0 := shape3_interp3 _ lx (r.map fun row => row.map fun z => -z.im)
      19 19 hdistsh
    rw [hDlen] at h0
    exact h0
  have haccsh : Shape3 (add3 (zeros3 memScenario.xs.length memScenario.ys.length
      memScenario.time_axis.length)
      (interp3 (add_source_to_list memScenarioBase wpScenario (0, 0)).dist
        lx (r.map fun row => row.map fun z => -z.im))) 19 19 11 :=
    shape3_add3 _ _ _ _ _ hzsh hcontrib
  refine ⟨?_, ?_, ?_⟩
  · rw [heval]
  · rw [heval]
    show some (shape3 (normalize3 _)) = some (19, 19, 11)
    rw [shape3_eq _ 19 19 11 (shape3_normalize3 _ _ _ _ haccsh)
      (by norm_num) (by norm_num)]
  · rw [heval]
    exact normalize3_max_le_one _

/-- C3 counterexample: the end-to-end construction with fs = 10, dx = 0.1,
size (2, 2), T = 1, transparent boundary and one wavepacket with dispersion
k(f) = f and spectrum [1] evaluates to a field whose shape is not
(21, 21, 11): np.arange(0, 1, 0.1) excludes the endpoint, so each mirrored
axis has 19 points, not 21. -/
theorem c3_counterexample : eval_shape memScenarioCtor ≠ some (21, 21, 11) := by
  unfold eval_shape
  simp only [mem_ctor]
  rw [c3_main.2.1]
  simp

/-- C3 amended: the end-to-end scenario constructs successfully, eval
succeeds, get_data has shape (19, 19, 11), and the maximum absolute value
of the published field is at most 1, so every value lies in [-1, 1]. -/
theorem c3_amended :
    memScenarioCtor = .ok memScenario ∧
    (membrane_eval memScenario).2 = none ∧
    results_shape (membrane_eval memScenario).1 = some (19, 19, 11) ∧
    max_abs3 ((membrane_eval memScenario).1.results.getD []) ≤ 1 :=
  ⟨mem_ctor, c3_main.1, c3_main.2.1, c3_main.2.2⟩

/-- C8 counterexample: with an envelope configured (constant one half), the
accumulated field has maximum absolute value 1, at least 1e-24, yet the
stored field has maximum absolute value 1/2, not 1 — the envelope is
applied after normalization and rescales the stored field. -/
theorem c8_counterexample :
    wp_eval wpUnitEnv = (wpUnitEnvEvaled, none) ∧
      max_abs_c (accum_field wpUnitEnv.spectrum wpUnitEnv.disprel
        (wpUnitEnvEvaled.space_axis.getD []) (wpUnitEnvEvaled.time_axis.getD []))
        ≥ 1e-24 ∧
      max_abs_c ((wpUnitEnvEvaled.results).getD []) ≠ 1 := by
  refine ⟨wp_eval_wpUnitEnv, ?_, ?_⟩
  · show max_abs_c (accum_field [1] [fun f : ℝ => f] [0] [0]) ≥ 1e-24
    rw [accum_field_unit, max_abs_c_one]
    norm_num
  · show max_abs_c [[(1 : ℂ) / 2]] ≠ 1
    have : max_abs_c [[(1 : ℂ) / 2]] = 1 / 2 := by
      simp [max_abs_c, map_div₀]
    rw [this]
    norm_num

/-- C1 counterexample: at Dx = Dy = 1 and pos = (0.2, 0.3) the code returns
the images (0.2, 1.7), (1.8, 0.3), (0.2, -2.3), (-2.2, 0.3); the claimed
image set contains (0.2, -1.7), which is not among them (mirroring y = 0.3
across the line y = -1 gives -2.3, exactly as the claim's own general
formula -2Dy - y prescribes), so the claimed example set is wrong. -/
theorem c1_counterexample :
    reflect_position 1 1 (1/5, 3/10) =
        .ok [(1/5, 17/10), (9/5, 3/10), (1/5, -23/10), (-11/5, 3/10)] ∧
      ((1/5 : ℚ), (-17/10 : ℚ)) ∉
        [((1/5 : ℚ), (17/10 : ℚ)), (9/5, 3/10), (1/5, -23/10), (-11/5, 3/10)] := by
  constructor
  · simp only [reflect_position]
    rw [if_pos (by norm_num : (-1 : ℚ) < 1/5 ∧ (1/5 : ℚ) < 1 ∧ (-1 : ℚ) < 3/10 ∧ (3/10 : ℚ) < 1)]
    norm_num
  · norm_num [Prod.ext_iff]

/-- C1 amended: `_reflect_position` on an interior point (x, y), with
half-extents (Dx, Dy), returns exactly the four image positions
(x, 2Dy-y), (2Dx-x, y), (x, -2Dy-y), (-2Dx-x, y), in the order of the edges
a, b, c, d; in particular for Dx = Dy = 1 and pos = (0.2, 0.3) it returns
(0.2, 1.7), (1.8, 0.3), (0.2, -2.3), (-2.2, 0.3). -/
theorem c1_reflect_interior (Dx Dy x y : ℚ)
    (h1 : -Dx < x) (h2 : x < Dx) (h3 : -Dy < y) (h4 : y < Dy) :
    reflect_position Dx Dy (x, y) =
      .ok [(x, 2 * Dy - y), (2 * Dx - x, y), (x, -2 * Dy - y), (-2 * Dx - x, y)] := by
  simp only [reflect_position]
  rw [if_pos ⟨h1, h2, h3, h4⟩]
  norm_num

/-- C1 amended witness: the corrected example with Dx = Dy = 1 and
pos = (0.2, 0.3). -/
theorem c1_reflect_interior_witness :
    ((-1 : ℚ) < 1/5 ∧ (1/5 : ℚ) < 1 ∧ (-1 : ℚ) < 3/10 ∧ (3/10 : ℚ) < 1) ∧
      reflect_position 1 1 (1/5, 3/10) =
        .ok [(1/5, 17/10), (9/5, 3/10), (1/5, -23/10), (-11/5, 3/10)] := by
  refine ⟨by norm_num, ?_⟩
  have h := c1_reflect_interior 1 1 (1/5) (3/10) (by norm_num) (by norm_num)
    (by norm_num) (by norm_num)
  rw [h]
  norm_num

/-- C2 counterexample: with half-extents Dx = Dy = 1 the numeric position
(0, 1), lying on the top edge, matches none of the nine region conditions
and `_reflect_position` raises ValueError, so the claimed exhaustiveness
fails. -/
theorem c2_counterexample :
    reflect_position 1 1 (0, 1) =
      .error "something went wrong and this condition should not have been reached." := by
  rfl

/-- C2 amended: the nine region conditions are not exhaustive; for positive
half-extents, `_reflect_position` raises exactly on the left edge x = -Dx
with -Dy ≤ y ≤ Dy and on the horizontal edge lines y = Dy and y = -Dy with
-Dx ≤ x < Dx; every other numeric position is classified without error. -/
theorem c2_error_characterization (Dx Dy x y : ℚ) (hDx : 0 < Dx) (hDy : 0 < Dy) :
    (∃ e, reflect_position Dx Dy (x, y) = .error e) ↔
      (x = -Dx ∧ -Dy ≤ y ∧ y ≤ Dy) ∨ ((y = Dy ∨ y = -Dy) ∧ -Dx ≤ x ∧ x < Dx) := by
  simp only [reflect_position]
  split_ifs with h1 h2 h3 h4 h5 h6 h7 h8 h9
  · apply iff_of_false
    · rintro ⟨e, he⟩; exact he.elim
    · obtain ⟨a, b, c, d⟩ := h1
      rintro (⟨hx, hy1, hy2⟩ | ⟨hy | hy, hx1, hx2⟩)
      · subst hx; linarith
      · subst hy; linarith
      · subst hy; linarith
  · apply iff_of_false
    · rintro ⟨e, he⟩; exact he.elim
    · obtain ⟨a, b⟩ := h2
      rintro (⟨hx, hy1, hy2⟩ | ⟨hy | hy, hx1, hx2⟩)
      · subst hx; linarith
      · subst hy; linarith
      · subst hy; linarith
  · apply iff_of_false
    · rintro ⟨e, he⟩; exact he.elim
    · obtain ⟨a, b, c⟩ := h3
      rintro (⟨hx, hy1, hy2⟩ | ⟨hy | hy, hx1, hx2⟩)
      · linarith
      · subst hy; linarith
      · subst hy; linarith
  · apply iff_of_false
    · rintro ⟨e, he⟩; exact he.elim
    · obtain ⟨a, b⟩ := h4
      rintro (⟨hx, hy1, hy2⟩ | ⟨hy | hy, hx1, hx2⟩)
      · subst hx; linarith
      · linarith
      · linarith
  · apply iff_of_false
    · rintro ⟨e, he⟩; exact he.elim
    · obtain ⟨a, b, c⟩ := h5
      rintro (⟨hx, hy1, hy2⟩ | ⟨hy | hy, hx1, hx2⟩)
      · subst hx; linarith
      · linarith
      · linarith
  · apply iff_of_false
    · rintro ⟨e, he⟩; exact he.elim
    · obtain ⟨a, b⟩ := h6
      rintro (⟨hx, hy1, hy2⟩ | ⟨hy | hy, hx1, hx2⟩)
      · subst hx; linarith
      · linarith
      · linarith
  · apply iff_of_false
    · rintro ⟨e, he⟩; exact he.elim
    · obtain ⟨a, b, c⟩ := h7
      rintro (⟨hx, hy1, hy2⟩ | ⟨hy | hy, hx1, hx2⟩)
      · linarith
      · subst hy; linarith
      · subst hy; linarith
  · apply iff_of_false
    · rintro ⟨e, he⟩; exact he.elim
    · obtain ⟨a, b⟩ := h8
      rintro (⟨hx, hy1, hy2⟩ | ⟨hy | hy, hx1, hx2⟩)
      · subst hx; linarith
      · subst hy; linarith
      · subst hy; linarith
  · apply iff_of_false
    · rintro ⟨e, he⟩; exact he.elim
    · obtain ⟨a, b, c⟩ := h9
      rintro (⟨hx, hy1, hy2⟩ | ⟨hy | hy, hx1, hx2⟩)
      · subst hx; linarith
      · linarith
      · linarith
  · apply iff_of_true ⟨_, rfl⟩
    have hyle : y ≤ Dy := by
      by_contra hc
      push_neg at hc
      rcases lt_trichotomy x (-Dx) with hx | hx | hx
      · exact h2 ⟨hc, hx⟩
      · exact h3 ⟨hc, le_of_eq hx.symm, by linarith⟩
      · rcases lt_or_le x Dx with hxl | hxg
        · exact h3 ⟨hc, by linarith, hxl⟩
        · exact h4 ⟨hc, hxg⟩
    have hyge : -Dy ≤ y := by
      by_contra hc
      push_neg at hc
      rcases lt_trichotomy x (-Dx) with hx | hx | hx
      · exact h8 ⟨hc, hx⟩
      · exact h7 ⟨hc, le_of_eq hx.symm, by linarith⟩
      · rcases lt_or_le x Dx with hxl | hxg
        · exact h7 ⟨hc, by linarith, hxl⟩
        · exact h6 ⟨hxg, by linarith⟩
    have hxlt : x < Dx := by
      by_contra hc
      push_neg at hc
      exact h6 ⟨hc, hyle⟩
    have hxge : -Dx ≤ x := by
      by_contra hc
      push_neg at hc
      exact h9 ⟨hc, hyge, hyle⟩
    rcases eq_or_lt_of_le hxge with hxe | hxs
    · exact Or.inl ⟨hxe.symm, hyge, hyle⟩
    · rcases eq_or_lt_of_le hyge with hye | hys
      · exact Or.inr ⟨Or.inr hye.symm, hxge, hxlt⟩
      · have hny : ¬ (y < Dy) := fun hlt => h1 ⟨hxs, hxlt, hys, hlt⟩
        exact Or.inr ⟨Or.inl (le_antisymm hyle (not_lt.mp hny)), hxge, hxlt⟩

/-- C2 amended witness: at Dx = Dy = 1 the edge position (0, 1) satisfies
the characterization, so the error branch is reached there. -/
theorem c2_error_characterization_witness :
    ((0 : ℚ) < 1) ∧ ∃ e, reflect_position 1 1 (0, 1) = .error e :=
  ⟨by norm_num,
    (c2_error_characterization 1 1 0 1 (by norm_num) (by norm_num)).mpr
      (Or.inr ⟨Or.inl rfl, by norm_num, by norm_num⟩)⟩

/-- C4 counterexample: setting the dispersion to None does not raise; the
setter intercepts None and silently stores the empty list, contradicting
the claim that None fails immediately at setter time. -/
theorem c4_counterexample : dispersion_setter .pynone = .ok [] := rfl

/-- C4 amended: setting the dispersion to an empty sequence raises the
ValueError immediately at setter time, while setting it to None does not
raise and silently resets the dispersion set to empty. -/
theorem c4_amended :
    dispersion_setter (.seq []) = .error "at least one dispersion relationship is need" ∧
      dispersion_setter .pynone = .ok [] :=
  ⟨rfl, rfl⟩

/-- C5 counterexample: the integer 0 is neither transparent, free, nor an
integer N ≥ 1, yet the boundary setter accepts it without raising. -/
theorem c5_counterexample :
    boundary_setter (.pyint 0) = .ok (.pyint 0) ∧ ¬ ((1 : ℤ) ≤ 0) := by
  exact ⟨rfl, by decide⟩

/-- C5 amended: the boundary setter accepts exactly the strings transparent
and free and every instance of int — every integer including zero and
negative values, and booleans — and raises TypeError on everything else. -/
theorem c5_amended (v : PyBVal) :
    (∃ w, boundary_setter v = .ok w) ↔
      (v = .pystr "transparent" ∨ v = .pystr "free" ∨ v.isInstInt = true) := by
  unfold boundary_setter
  split_ifs with h
  · exact iff_of_true ⟨v, rfl⟩ (by simpa using h)
  · apply iff_of_false
    · rintro ⟨w, hw⟩; exact hw.elim
    · intro hc; exact h (by simpa using hc)

/-- C10: setting the envelope to a non-callable value raises TypeError, and
the setter has already reset the stored envelope to None before raising, so
any previously configured envelope is discarded even though the assignment
fails. -/
theorem c10_envelope_reset (w : Wavepacket) :
    envelope_setter w .nonCallable =
      ({ w with envelope := none },
        some "envelope should be a function of one paramenter.") := rfl

end Waves
